import Mathlib

/-!
Verification of the `inmemorystorage` engine (`inmemory_storage.go`,
`inmemory_factory.go`): an in-memory key/value store backed by a
`go-cache` table of entries with absolute expiration timestamps.

Modelling choices:
* A Go byte slice is a `List Nat`; the `nil` slice is distinguished from
  the empty one by using `Option (List Nat)` for values (`none` = nil),
  because `getImpl` treats a `nil` value exactly like an absent key.
* The cache (`github.com/patrickmn/go-cache`) is an association list of
  `(key, Item)` pairs with map-update semantics; list order stands in for
  Go's unspecified map iteration order.  `Item.expiration` is the absolute
  UnixNano timestamp (`0` or negative = never expires), and `Get`/`Items`
  drop an item exactly when `0 < expiration ∧ expiration < now`, as in
  go-cache.
* Time is an explicit `now : Int` (UnixNano) argument threaded through
  the operations; `time.Second * ttlSeconds` is `ttlSeconds * 1000000000`.
* The consumer callback of `EnumerateRaw` is a pure `RawEntry → Bool`;
  the result of `EnumerateRaw` is the list of entries the consumer was
  invoked on, in order.  The Go mutating callback of `DoInTransaction`
  is a pure `RawEntry → RawEntry × Bool` (mutated entry, returned bool).
-/

namespace InMemoryStorage

/-- A Go byte string (`[]byte` contents / `string` bytes). -/
abbrev Bytes := List Nat

/-- `go-cache` `Item`: the stored object (always a `[]byte` in this engine,
`none` modelling the nil slice) and an absolute expiration timestamp in
UnixNano (`0` or negative means no expiration). -/
structure Item where
  object : Option Bytes
  expiration : Int
deriving DecidableEq

/-- The cache's `items` map, as an association list with unique keys. -/
abbrev Table := List (Bytes × Item)

/-- Error kinds returned by the engine: `os.ErrNotExist` and `ErrCanceled`. -/
inductive StorageError
  | NotFound
  | Canceled
deriving DecidableEq

/-- `storage.RawEntry`: key, value (nil-able), TTL and version fields. -/
structure RawEntry where
  key : Bytes
  value : Option Bytes := none
  ttl : Int := 0
  version : Int := 0
deriving DecidableEq

/-- Byte-wise lexicographic comparison of Go strings. -/
def lexCmp : Bytes → Bytes → Ordering
  | [], [] => Ordering.eq
  | [], _ :: _ => Ordering.lt
  | _ :: _, [] => Ordering.gt
  | a :: as, b :: bs =>
    if a < b then Ordering.lt
    else if b < a then Ordering.gt
    else lexCmp as bs

/-- Go `key >= seekStr` on strings (byte-wise lexicographic order). -/
def strGE (a b : Bytes) : Bool := decide (lexCmp a b ≠ Ordering.lt)

/-- go-cache liveness check: an item is returned by `Get`/`Items` unless
`Expiration > 0` and `now > Expiration`. -/
def itemLive (now : Int) (it : Item) : Bool :=
  decide (¬(0 < it.expiration ∧ it.expiration < now))

/-- Lookup in the `items` map. -/
def lookupKey : Table → Bytes → Option Item
  | [], _ => none
  | kv :: rest, k => if kv.1 = k then some kv.2 else lookupKey rest k

/-- go-cache `Delete`: removes the binding for `k` from the map. -/
def cacheDelete (st : Table) (k : Bytes) : Table :=
  st.filter (fun kv => decide (kv.1 ≠ k))

/-- go-cache `Set`: map update `c.items[k] = Item{Object: x, Expiration: e}`. -/
def cacheSet (st : Table) (k : Bytes) (x : Option Bytes) (e : Int) : Table :=
  (k, ⟨x, e⟩) :: cacheDelete st k

/-- go-cache `Get`: returns the stored object if the key is present and
not expired at `now`. -/
def cacheGet (st : Table) (now : Int) (k : Bytes) : Option (Option Bytes) :=
  match lookupKey st k with
  | none => none
  | some it => if itemLive now it then some it.object else none

/-- go-cache `Items`: a copy of all unexpired items. -/
def cacheItems (st : Table) (now : Int) : Table :=
  st.filter (fun kv => itemLive now kv.2)

/-- go-cache `DeleteExpired` (used by `Compact`): physically removes every
expired item. -/
def cacheDeleteExpired (st : Table) (now : Int) : Table :=
  st.filter (fun kv => itemLive now kv.2)

/-- The expiration timestamp computed by `SetRaw`/`DoInTransaction`:
`ttl = time.Second * ttlSeconds` when `ttlSeconds > 0` (go-cache stores
`e = now + d`), otherwise `cache.NoExpiration`, stored as `e = 0`. -/
def expOf (now : Int) (ttlSeconds : Int) : Int :=
  if 0 < ttlSeconds then now + ttlSeconds * 1000000000 else 0

/-- The value-extraction pattern shared by `getImpl` and `DoInTransaction`:
`if obj, ok := t.cache.Get(string(rawKey)); ok && obj != nil { if b, ok :=
obj.([]byte); ok { val = b } }`.  The engine only ever stores `[]byte`
objects, so the interface is non-nil and the type assertion succeeds (a
typed nil slice gives `val = nil`, i.e. `none`). -/
def loadVal (st : Table) (now : Int) (k : Bytes) : Option Bytes :=
  match cacheGet st now k with
  | some obj => obj
  | none => none

/-- `SetRaw(prefix, key, value, ttlSeconds)`: stores `value` under
`prefix ++ key`; always returns a nil error. -/
def SetRaw (st : Table) (now : Int) (p key : Bytes) (value : Option Bytes)
    (ttlSeconds : Int) : Table × Option StorageError :=
  (cacheSet st (p ++ key) value (expOf now ttlSeconds), none)

/-- `getImpl(prefix, key, required)`: load the value (`loadVal`); fail
with `os.ErrNotExist` when `val == nil && required`, otherwise return
the loaded value with a nil error. -/
def getImpl (st : Table) (now : Int) (p key : Bytes) (required : Bool) :
    Except StorageError (Option Bytes) :=
  if loadVal st now (p ++ key) = none ∧ required = true
  then Except.error StorageError.NotFound
  else Except.ok (loadVal st now (p ++ key))

/-- `CompareAndSetRaw(bucket, key, value, ttlSeconds, version)`:
`return true, t.SetRaw(bucket, key, value, ttlSeconds)`. -/
def CompareAndSetRaw (st : Table) (now : Int) (bucket key : Bytes)
    (value : Option Bytes) (ttlSeconds : Int) (version : Int) :
    (Bool × Option StorageError) × Table :=
  let r := SetRaw st now bucket key value ttlSeconds
  ((true, r.2), r.1)

/-- `RemoveRaw(prefix, key)`: deletes the binding; always a nil error. -/
def RemoveRaw (st : Table) (now : Int) (p key : Bytes) :
    Table × Option StorageError :=
  (cacheDelete st (p ++ key), none)

/-- The `RawEntry` handed to the `DoInTransaction` callback: raw key,
`Ttl = storage.NoTTL`, `Version = 0`, and the current value if present. -/
def txEntry (st : Table) (now : Int) (p key : Bytes) : RawEntry :=
  { key := p ++ key, value := loadVal st now (p ++ key), ttl := 0, version := 0 }

/-- `DoInTransaction(prefix, key, cb)`: load the entry, run the callback;
if it returns `false`, return `ErrCanceled` leaving the table untouched,
otherwise store the (possibly mutated) entry's value with its TTL. -/
def DoInTransaction (st : Table) (now : Int) (p key : Bytes)
    (cb : RawEntry → RawEntry × Bool) : Option StorageError × Table :=
  if (cb (txEntry st now p key)).2 = false
  then (some StorageError.Canceled, st)
  else (none, cacheSet st (p ++ key) (cb (txEntry st now p key)).1.value
      (expOf now (cb (txEntry st now p key)).1.ttl))

/-- The `RawEntry` built by `EnumerateRaw` for a matching item:
`Key = key`, `Value = val`, `Ttl = int(item.Expiration)`,
`Version = item.Expiration`.  Note that `Value` is set unconditionally:
the `onlyKeys` flag is not consulted. -/
def toRawEntry (kv : Bytes × Item) : RawEntry :=
  { key := kv.1, value := kv.2.object, ttl := kv.2.expiration,
    version := kv.2.expiration }

/-- The filter applied by `EnumerateRaw`'s loop:
`strings.HasPrefix(key, prefixStr) && key >= seekStr` (the `[]byte` type
assertion always succeeds for entries written by this engine). -/
def enumMatch (p seek : Bytes) (kv : Bytes × Item) : Bool :=
  p.isPrefixOf kv.1 && strGE kv.1 seek

/-- The `for key, item := range t.cache.Items()` loop of `EnumerateRaw`,
collecting the entries the consumer is invoked on; a `false` return
breaks out of the loop. -/
def enumLoop (p seek : Bytes) (cb : RawEntry → Bool) :
    List (Bytes × Item) → List RawEntry
  | [] => []
  | kv :: rest =>
    if enumMatch p seek kv then
      if cb (toRawEntry kv) then toRawEntry kv :: enumLoop p seek cb rest
      else [toRawEntry kv]
    else enumLoop p seek cb rest

/-- `EnumerateRaw(prefix, seek, batchSize, onlyKeys, cb)`: walks
`t.cache.Items()` and invokes the consumer on every matching entry until
it returns `false`.  `batchSize` and `onlyKeys` are not used by the body.
The result is the ordered list of entries passed to the consumer. -/
def EnumerateRaw (st : Table) (now : Int) (p seek : Bytes) (batchSize : Int)
    (onlyKeys : Bool) (cb : RawEntry → Bool) : List RawEntry :=
  enumLoop p seek cb (cacheItems st now)

/-- `FetchKeysRaw(prefix, batchSize)`: collects every key of
`t.cache.Items()` having the prefix; `batchSize` is not used. -/
def FetchKeysRaw (st : Table) (now : Int) (p : Bytes) (batchSize : Int) :
    List Bytes :=
  (cacheItems st now).foldl
    (fun keys kv => if p.isPrefixOf kv.1 then keys ++ [kv.1] else keys) []

/-- `DropWithPrefix(prefix)`: deletes every key of `t.cache.Items()`
having the prefix. -/
def DropWithPrefix (st : Table) (now : Int) (p : Bytes) : Table :=
  ((cacheItems st now).filter (fun kv => p.isPrefixOf kv.1)).foldl
    (fun acc kv => cacheDelete acc kv.1) st

/-- `DropAll`: `t.cache.Flush()` empties the table. -/
def DropAll (_st : Table) : Table := []

/-- `Compact(discardRatio)`: `t.cache.DeleteExpired()`; the ratio is
ignored. -/
def Compact (st : Table) (now : Int) (discardRatio : Int) : Table :=
  cacheDeleteExpired st now

/-- Modelled from the spec: the serialized snapshot produced by
`t.cache.Save(w)` (the go-cache gob encoder is not part of this
repository).  Per the spec, it is an engine-defined binary encoding of
the full table — every key, value and expiration; modelled here as a
length-prefixed concatenation.  It always emits at least the entry-count
header byte. -/
def encodeBytes (b : Bytes) : List Nat := b.length :: b

/-- Modelled from the spec: encoding of a nil-able value. -/
def encodeValue : Option Bytes → List Nat
  | none => [0]
  | some v => 1 :: encodeBytes v

/-- Modelled from the spec: encoding of an expiration timestamp. -/
def encodeInt (i : Int) : List Nat :=
  if i < 0 then [0, i.natAbs] else [1, i.natAbs]

/-- Modelled from the spec: encoding of one table entry. -/
def encodeEntry (kv : Bytes × Item) : List Nat :=
  encodeBytes kv.1 ++ encodeValue kv.2.object ++ encodeInt kv.2.expiration

/-- Modelled from the spec: the bytes `t.cache.Save(w)` writes to `w`. -/
def cacheSave (st : Table) : List Nat :=
  st.length :: st.foldr (fun kv acc => encodeEntry kv ++ acc) []

/-- `Backup(w, since)`: `return 0, t.cache.Save(w)` — the returned byte
count is the literal constant `0`; the sink receives the serialized
table. -/
def Backup (st : Table) (since : Nat) : Nat × List Nat :=
  (0, cacheSave st)

/-- Entries the consumer is invoked on, given the matching entries in
walk order: all of them while the consumer answers `true`, including the
first one it rejects (the walk breaks immediately after it). -/
def takeUntilStop (cb : RawEntry → Bool) : List RawEntry → List RawEntry
  | [] => []
  | e :: rest => if cb e then e :: takeUntilStop cb rest else [e]

/-- Example table: key `"A" ++ "1"` set with the nil value and no TTL. -/
def exNilTable : Table := (SetRaw [] 0 [65] [49] none 0).1

/-- Example table: key `[107]` set with value `[7]` and no TTL. -/
def exOneTable : Table := (SetRaw [] 0 [107] [] (some [7]) 0).1

/-- Example table: key `[107, 101]` set with value `[1]` and no TTL. -/
def exBackupTable : Table := (SetRaw [] 0 [107] [101] (some [1]) 0).1

/-- Example table: key `"p" ++ "a"` set at time 0 with a 1-second TTL,
hence expired (but still physically stored) at time `2000000000`. -/
def exExpiredEnum : Table := (SetRaw [] 0 [112] [97] (some [1]) 1).1

/-- Example table: key `"A" ++ "1"` set at time 0 with a 1-second TTL,
hence expired (but still physically stored) at time `2000000000`. -/
def exExpiredDrop : Table := (SetRaw [] 0 [65] [49] (some [1]) 1).1

/-- Example table: keys `"p" ++ "a"`, `"p" ++ "b"`, `"p" ++ "c"` set with
no TTL. -/
def exABC : Table :=
  (SetRaw (SetRaw (SetRaw [] 0 [112] [97] (some [1]) 0).1
    0 [112] [98] (some [2]) 0).1 0 [112] [99] (some [3]) 0).1

/-- Example table: keys `"A" ++ "1"` and `"B" ++ "1"` set with no TTL. -/
def exAB : Table :=
  (SetRaw (SetRaw [] 0 [65] [49] (some [1]) 0).1 0 [66] [49] (some [2]) 0).1

/-! ## Helper lemmas -/

theorem lookupKey_cacheSet_self (st : Table) (k : Bytes) (x : Option Bytes)
    (e : Int) : lookupKey (cacheSet st k x e) k = some ⟨x, e⟩ := by
  simp [cacheSet, lookupKey]

theorem itemLive_expOf (now now2 ttl : Int) (x : Option Bytes)
    (h : 0 < ttl → now2 ≤ now + ttl * 1000000000) :
    itemLive now2 ⟨x, expOf now ttl⟩ = true := by
  by_cases httl : 0 < ttl
  · have := h httl
    simp only [itemLive, expOf, if_pos httl, decide_eq_true_eq]
    omega
  · simp only [itemLive, expOf, if_neg httl, decide_eq_true_eq]
    omega

theorem loadVal_SetRaw (st : Table) (now now2 : Int) (p key : Bytes)
    (x : Option Bytes) (ttl : Int)
    (h : itemLive now2 ⟨x, expOf now ttl⟩ = true) :
    loadVal (SetRaw st now p key x ttl).1 now2 (p ++ key) = x := by
  unfold loadVal cacheGet SetRaw
  rw [lookupKey_cacheSet_self]
  simp [h]

theorem loadVal_SetRaw_nil (st : Table) (now now2 : Int) (p key : Bytes)
    (ttl : Int) :
    loadVal (SetRaw st now p key none ttl).1 now2 (p ++ key) = none := by
  unfold loadVal cacheGet SetRaw
  rw [lookupKey_cacheSet_self]
  by_cases h : itemLive now2 ⟨none, expOf now ttl⟩ = true <;> simp [h]

theorem enumLoop_eq (p seek : Bytes) (cb : RawEntry → Bool)
    (l : List (Bytes × Item)) :
    enumLoop p seek cb l
      = takeUntilStop cb ((l.filter (enumMatch p seek)).map toRawEntry) := by
  induction l with
  | nil => rfl
  | cons kv rest ih =>
    by_cases hm : enumMatch p seek kv = true
    · by_cases hcb : cb (toRawEntry kv) = true
      · simp [enumLoop, takeUntilStop, hm, hcb, List.filter_cons, ih]
      · simp [enumLoop, takeUntilStop, hm, hcb, List.filter_cons]
    · simp [enumLoop, hm, List.filter_cons, ih]

theorem takeUntilStop_all_true (cb : RawEntry → Bool) (l : List RawEntry)
    (h : ∀ e, cb e = true) : takeUntilStop cb l = l := by
  induction l with
  | nil => rfl
  | cons e rest ih => simp [takeUntilStop, h e, ih]

theorem mem_takeUntilStop {cb : RawEntry → Bool} {l : List RawEntry}
    {e : RawEntry} (h : e ∈ takeUntilStop cb l) : e ∈ l := by
  induction l with
  | nil => simp [takeUntilStop] at h
  | cons a rest ih =>
    by_cases hcb : cb a = true
    · simp only [takeUntilStop, if_pos hcb, List.mem_cons] at h
      rcases h with rfl | h
      · exact List.mem_cons_self _ _
      · exact List.mem_cons_of_mem a (ih h)
    · simp only [takeUntilStop, if_neg hcb, List.mem_singleton] at h
      subst h
      exact List.mem_cons_self _ _

theorem cacheItems_eq_self {st : Table} {now : Int}
    (h : ∀ kv ∈ st, itemLive now kv.2 = true) : cacheItems st now = st :=
  List.filter_eq_self.mpr h

theorem foldl_collect_keys (p : Bytes) (l : List (Bytes × Item))
    (acc : List Bytes) :
    l.foldl (fun keys kv => if p.isPrefixOf kv.1 then keys ++ [kv.1] else keys)
        acc
      = acc ++ (l.filter (fun kv => p.isPrefixOf kv.1)).map Prod.fst := by
  induction l generalizing acc with
  | nil => simp
  | cons kv rest ih =>
    by_cases hm : p.isPrefixOf kv.1 = true
    · rw [List.foldl_cons, if_pos hm, ih, List.filter_cons, if_pos hm,
        List.map_cons, List.append_assoc, List.singleton_append]
    · rw [List.foldl_cons, if_neg hm, ih, List.filter_cons, if_neg hm]

theorem foldl_cacheDelete (st : Table) (l : List (Bytes × Item)) :
    l.foldl (fun acc kv => cacheDelete acc kv.1) st
      = st.filter (fun kv => decide (kv.1 ∉ l.map Prod.fst)) := by
  induction l generalizing st with
  | nil =>
    rw [List.foldl_nil]
    exact (List.filter_eq_self.mpr (by simp)).symm
  | cons kv0 rest ih =>
    rw [List.foldl_cons, ih]
    unfold cacheDelete
    rw [List.filter_filter]
    apply List.filter_congr
    intro a _
    by_cases h1 : a.1 = kv0.1
    · simp [h1]
    · simp [h1]

theorem key_unique {st : Table} (hnd : (st.map Prod.fst).Nodup)
    {kv kv' : Bytes × Item} (h1 : kv ∈ st) (h2 : kv' ∈ st)
    (hk : kv.1 = kv'.1) : kv = kv' := by
  induction st with
  | nil => cases h1
  | cons a rest ih =>
    rw [List.map_cons, List.nodup_cons] at hnd
    rcases List.mem_cons.mp h1 with h1e | h1t <;>
      rcases List.mem_cons.mp h2 with h2e | h2t
    · exact h1e.trans h2e.symm
    · exact absurd (show a.1 ∈ rest.map Prod.fst by
        rw [h1e] at hk
        rw [hk]
        exact List.mem_map_of_mem Prod.fst h2t) hnd.1
    · exact absurd (show a.1 ∈ rest.map Prod.fst by
        rw [h2e] at hk
        rw [← hk]
        exact List.mem_map_of_mem Prod.fst h1t) hnd.1
    · exact ih hnd.2 h1t h2t

/-- C8 (amended): `DropWithPrefix(p)` removes exactly the *unexpired*
entries whose full table key starts with `p` (an expired-but-unswept
entry is not touched, because the walk is over `cache.Items()`), and it
leaves every other entry — key, value and expiration — unchanged.  The
table keys are assumed distinct, the invariant of the Go map backing the
cache. -/
theorem dropWithPrefix_removes_exactly_live_matching (st : Table)
    (now : Int) (p : Bytes) (hnd : (st.map Prod.fst).Nodup) :
    DropWithPrefix st now p
      = st.filter (fun kv => !(itemLive now kv.2 && p.isPrefixOf kv.1)) := by
  unfold DropWithPrefix
  rw [foldl_cacheDelete]
  apply List.filter_congr
  intro kv hkv
  have hmem : kv.1 ∈ ((cacheItems st now).filter
      (fun kv => p.isPrefixOf kv.1)).map Prod.fst
      ↔ itemLive now kv.2 = true ∧ p.isPrefixOf kv.1 = true := by
    constructor
    · intro hin
      obtain ⟨kv', hkv', hfst⟩ := List.mem_map.mp hin
      obtain ⟨hkv'c, hp⟩ := List.mem_filter.mp hkv'
      obtain ⟨hkv's, hl⟩ := List.mem_filter.mp hkv'c
      have heq : kv' = kv := key_unique hnd hkv's hkv hfst
      rw [heq] at hl hp
      exact ⟨hl, hp⟩
    · intro ⟨hl, hp⟩
      refine List.mem_map_of_mem Prod.fst ?_
      exact List.mem_filter.mpr ⟨List.mem_filter.mpr ⟨hkv, hl⟩, hp⟩
  cases hli : itemLive now kv.2 <;> cases hpi : p.isPrefixOf kv.1 <;>
    simp [hmem, hli, hpi]

/-- C8 witness: with `"A" ++ "1" ↦ [1]` and `"B" ++ "1" ↦ [2]` stored,
`DropWithPrefix("A")` removes only the former; the `"B"` entry is left
intact. -/
theorem dropWithPrefix_removes_exactly_live_matching_witness :
    DropWithPrefix exAB 0 [65] = [([66, 49], ⟨some [2], 0⟩)] :=
  (dropWithPrefix_removes_exactly_live_matching exAB 0 [65] (by decide)).trans
    (by decide)

/-- C8 counterexample: the key `"A" ++ "1"` of `exExpiredDrop` starts
with `"A"` and the entry is physically stored, yet
`DropWithPrefix("A")` at a time after its expiration removes nothing:
the claim that it removes *every* entry whose key starts with the prefix
is false for expired-but-unswept entries. -/
theorem drop_leaves_expired_stored_entry :
    (lookupKey exExpiredDrop [65, 49]).isSome = true ∧
    ([65] : Bytes).isPrefixOf [65, 49] = true ∧
    DropWithPrefix exExpiredDrop 2000000000 [65] = exExpiredDrop := by
  decide

/-- C1: `CompareAndSetRaw` does not check `expectedVersion` against any
stored version: for every state, prefix, key, value, TTL and version it
performs exactly the `SetRaw` state update and returns success —
`true` with a nil error — regardless of the key's prior presence or
version. -/
theorem compareAndSet_is_unconditional_set (st : Table) (now : Int)
    (bucket key : Bytes) (value : Option Bytes) (ttlSeconds version : Int) :
    CompareAndSetRaw st now bucket key value ttlSeconds version
      = ((true, none), (SetRaw st now bucket key value ttlSeconds).1) := rfl

/-- C2: after `SetRaw(p, key, v, ttl)` with a non-nil value `v`, a
`getImpl(p, key, required)` at any time at which the TTL has not elapsed
(and with no intervening removal) returns `v`, for either value of
`required`. -/
theorem set_then_get_roundtrip (st : Table) (now now2 : Int)
    (p key v : Bytes) (ttl : Int) (required : Bool)
    (h : 0 < ttl → now2 ≤ now + ttl * 1000000000) :
    getImpl (SetRaw st now p key (some v) ttl).1 now2 p key required
      = Except.ok (some v) := by
  have hlive := itemLive_expOf now now2 ttl (some v) h
  have hload := loadVal_SetRaw st now now2 p key (some v) ttl hlive
  simp [getImpl, hload]

/-- C2 witness: `Set` of value `[9]` with a 1-second TTL followed by a
required `Get` 5 nanoseconds later returns `[9]`. -/
theorem set_then_get_roundtrip_witness :
    getImpl (SetRaw ([] : Table) 0 [1] [2] (some [9]) 1).1 5 [1] [2] true
      = Except.ok (some [9]) :=
  set_then_get_roundtrip [] 0 5 [1] [2] [9] 1 true (by decide)

/-- C3 (amended): `getImpl` fails with `NotFound` iff the *loaded value*
is nil — the key absent, expired, removed, **or stored with the nil
slice** — and `required` is true; when the loaded value is nil and
`required` is false it returns an empty result with no error; when a
non-nil unexpired value is present it never errors. -/
theorem getImpl_notfound_characterization (st : Table) (now : Int)
    (p key : Bytes) (required : Bool) :
    (getImpl st now p key required = Except.error StorageError.NotFound
        ↔ loadVal st now (p ++ key) = none ∧ required = true) ∧
    (loadVal st now (p ++ key) = none → required = false →
        getImpl st now p key required = Except.ok none) ∧
    (∀ v : Bytes, loadVal st now (p ++ key) = some v →
        getImpl st now p key required = Except.ok (some v)) := by
  refine ⟨⟨?_, ?_⟩, ?_, ?_⟩
  · intro hEq
    by_cases hc : loadVal st now (p ++ key) = none ∧ required = true
    · exact hc
    · unfold getImpl at hEq
      rw [if_neg hc] at hEq
      cases hEq
  · intro hc
    unfold getImpl
    rw [if_pos hc]
  · intro h1 h2
    unfold getImpl
    rw [if_neg (by simp [h2]), h1]
  · intro v hv
    unfold getImpl
    rw [if_neg (by simp [hv]), hv]

/-- C3 witness: a required `Get` of a never-set key fails with
`NotFound`. -/
theorem getImpl_notfound_characterization_witness :
    getImpl ([] : Table) 0 [1] [2] true
      = Except.error StorageError.NotFound :=
  (getImpl_notfound_characterization [] 0 [1] [2] true).1.mpr ⟨rfl, rfl⟩

/-- C3 counterexample: the key `"A" ++ "1"` is present (and unexpired)
in `exNilTable` — it was set, with the nil value — yet the required
`Get` fails with `NotFound`; so `NotFound` does not imply the key is
absent (never set, expired or removed). -/
theorem get_required_notfound_on_present_unexpired_key :
    lookupKey exNilTable [65, 49] = some ⟨none, 0⟩ ∧
    itemLive 0 ⟨(none : Option Bytes), 0⟩ = true ∧
    getImpl exNilTable 0 [65] [49] true
      = Except.error StorageError.NotFound :=
  ⟨rfl, by decide, rfl⟩

/-- C4: if the mutator passed to `DoInTransaction` returns `false`, the
call fails with `Canceled` and the table is exactly the table before the
call; if it returns `true`, the call succeeds (nil error) and persists
`SetRaw(p, key, entry.Value, entry.Ttl)` with the entry as left by the
mutator. -/
theorem doInTransaction_cancel_or_commit (st : Table) (now : Int)
    (p key : Bytes) (cb : RawEntry → RawEntry × Bool) :
    ((cb (txEntry st now p key)).2 = false →
      DoInTransaction st now p key cb = (some StorageError.Canceled, st)) ∧
    ((cb (txEntry st now p key)).2 = true →
      DoInTransaction st now p key cb
        = (none, (SetRaw st now p key (cb (txEntry st now p key)).1.value
            (cb (txEntry st now p key)).1.ttl).1)) := by
  constructor
  · intro h
    unfold DoInTransaction
    rw [if_pos h]
  · intro h
    unfold DoInTransaction
    rw [if_neg (by simp [h])]
    rfl

/-- C4 witness: a mutator that declines leaves the empty table empty and
the call returns `Canceled`. -/
theorem doInTransaction_cancel_witness :
    DoInTransaction ([] : Table) 0 [1] [2] (fun e => (e, false))
      = (some StorageError.Canceled, []) :=
  (doInTransaction_cancel_or_commit [] 0 [1] [2] (fun e => (e, false))).1 rfl

/-- C5 (amended): `EnumerateRaw` invokes the consumer exactly on the set
of stored *unexpired* entries whose full table key starts with the
prefix and is lexicographically ≥ `seek` (expired-but-unswept entries
are skipped, because the walk is over `cache.Items()`): no entry outside
that set is visited; every entry of that set is visited when the
consumer always returns `true`; and the walk stops immediately after the
consumer returns `false`. -/
theorem enumerate_visits_exactly_matching_live (st : Table) (now : Int)
    (p seek : Bytes) (batchSize : Int) (onlyKeys : Bool)
    (cb : RawEntry → Bool) :
    (∀ e ∈ EnumerateRaw st now p seek batchSize onlyKeys cb,
        ∃ it : Item, (e.key, it) ∈ st ∧ itemLive now it = true ∧
          enumMatch p seek (e.key, it) = true) ∧
    ((∀ e, cb e = true) →
        (EnumerateRaw st now p seek batchSize onlyKeys cb).map RawEntry.key
          = ((cacheItems st now).filter (enumMatch p seek)).map Prod.fst) ∧
    EnumerateRaw st now p seek batchSize onlyKeys cb
      = takeUntilStop cb
          (((cacheItems st now).filter (enumMatch p seek)).map toRawEntry) := by
  have hmain : EnumerateRaw st now p seek batchSize onlyKeys cb
      = takeUntilStop cb
          (((cacheItems st now).filter (enumMatch p seek)).map toRawEntry) :=
    enumLoop_eq p seek cb (cacheItems st now)
  refine ⟨?_, ?_, hmain⟩
  · intro e he
    rw [hmain] at he
    obtain ⟨kv, hkv, hkve⟩ := List.mem_map.mp (mem_takeUntilStop he)
    obtain ⟨hkvc, hm⟩ := List.mem_filter.mp hkv
    obtain ⟨hkvs, hl⟩ := List.mem_filter.mp hkvc
    have hek : e.key = kv.1 := by
      rw [← hkve]
      rfl
    refine ⟨kv.2, ?_, hl, ?_⟩
    · rw [hek, Prod.mk.eta]
      exact hkvs
    · rw [hek, Prod.mk.eta]
      exact hm
  · intro hall
    rw [hmain, takeUntilStop_all_true cb _ hall, List.map_map]
    rw [show RawEntry.key ∘ toRawEntry = Prod.fst from funext (fun kv => rfl)]

/-- C5 witness: with `"p"++"a"`, `"p"++"b"`, `"p"++"c"` stored and
unexpired, enumerating with that prefix and `seek = "p"++"b"` and an
always-`true` consumer visits exactly the entries for `"b"` and `"c"`
(in engine order) and never `"a"`. -/
theorem enumerate_visits_exactly_matching_live_witness :
    (EnumerateRaw exABC 0 [112] [112, 98] 0 false (fun _ => true)).map
        RawEntry.key
      = [[112, 99], [112, 98]] :=
  ((enumerate_visits_exactly_matching_live exABC 0 [112] [112, 98] 0 false
      (fun _ => true)).2.1 (fun _ => rfl)).trans (by decide)

/-- C5 counterexample: `exExpiredEnum` physically stores an entry whose
key `"p"++"a"` matches the prefix and seek, and the consumer always
returns `true`, yet the entry is never visited (it expired at
`1000000000` and the walk runs at `2000000000`): the claim that *every*
stored matching entry is visited is false. -/
theorem enumerate_misses_expired_stored_entry :
    lookupKey exExpiredEnum [112, 97] = some ⟨some [1], 1000000000⟩ ∧
    enumMatch [112] [] ([112, 97], ⟨some [1], 1000000000⟩) = true ∧
    EnumerateRaw exExpiredEnum 2000000000 [112] [] 0 false (fun _ => true)
      = [] := by
  refine ⟨rfl, by decide, by decide⟩

/-- C6 (amended): the record passed to the consumer always contains both
the key and the value — `EnumerateRaw` never consults `onlyKeys`, so the
records (built by `toRawEntry`, whose `value` field is the stored
object) are identical for every value of the flag. -/
theorem enumerate_record_always_has_value (st : Table) (now : Int)
    (p seek : Bytes) (batchSize : Int) (onlyKeys : Bool)
    (cb : RawEntry → Bool) :
    EnumerateRaw st now p seek batchSize onlyKeys cb
      = EnumerateRaw st now p seek batchSize false cb ∧
    EnumerateRaw st now p seek batchSize onlyKeys cb
      = takeUntilStop cb
          (((cacheItems st now).filter (enumMatch p seek)).map toRawEntry) :=
  ⟨rfl, enumLoop_eq p seek cb (cacheItems st now)⟩

/-- C6 counterexample: enumerating `exOneTable` with `onlyKeys = true`
passes the consumer a record whose value field is the stored value
`[7]`, not an omitted/empty one. -/
theorem enumerate_onlyKeys_still_includes_value :
    EnumerateRaw exOneTable 0 [] [] 10 true (fun _ => true)
      = [{ key := [107], value := some [7], ttl := 0, version := 0 }] ∧
    (EnumerateRaw exOneTable 0 [] [] 10 true (fun _ => true)).map
        RawEntry.value
      ≠ [none] := by
  refine ⟨by decide, by decide⟩

/-- C7 (amended): `Backup(sink, since)` serializes the full current
table to the sink, but its `bytesWritten` result is the literal `0` —
never the number of bytes written, which is positive for every table
under the (spec-modelled) encoding. -/
theorem backup_writes_snapshot_returns_zero (st : Table) (since : Nat) :
    (Backup st since).2 = cacheSave st ∧ (Backup st since).1 = 0 ∧
    (Backup st since).1 ≠ (Backup st since).2.length := by
  refine ⟨rfl, rfl, ?_⟩
  intro h
  simp [Backup, cacheSave] at h

/-- C7 counterexample: backing up a one-entry table writes a non-empty
byte stream to the sink, yet the `bytesWritten` result is `0`. -/
theorem backup_returns_zero_not_bytes_written :
    (Backup exBackupTable 0).1 = 0 ∧
    (Backup exBackupTable 0).2 ≠ [] ∧
    (Backup exBackupTable 0).1 ≠ (Backup exBackupTable 0).2.length := by
  decide

/-- C9: after `SetRaw` of the nil value the entry is physically stored,
yet a required `getImpl` fails with `NotFound` — indistinguishable from
an absent key — while an entry stored with the non-nil empty value is
returned successfully (while unexpired). -/
theorem set_nil_value_indistinguishable_from_absent (st : Table)
    (now now2 : Int) (p key : Bytes) (ttl : Int) :
    (lookupKey (SetRaw st now p key none ttl).1 (p ++ key)).isSome = true ∧
    getImpl (SetRaw st now p key none ttl).1 now2 p key true
      = Except.error StorageError.NotFound ∧
    ((0 < ttl → now2 ≤ now + ttl * 1000000000) →
      getImpl (SetRaw st now p key (some []) ttl).1 now2 p key true
        = Except.ok (some [])) := by
  refine ⟨?_, ?_, ?_⟩
  · rw [show (SetRaw st now p key none ttl).1
        = cacheSet st (p ++ key) none (expOf now ttl) from rfl,
      lookupKey_cacheSet_self]
    rfl
  · have h0 := loadVal_SetRaw_nil st now now2 p key ttl
    simp [getImpl, h0]
  · intro h
    have hlive := itemLive_expOf now now2 ttl (some []) h
    have hload := loadVal_SetRaw st now now2 p key (some []) ttl hlive
    simp [getImpl, hload]

/-- C9 witness: the non-nil-empty-value contrast at a concrete input —
the empty (non-nil) value is returned successfully. -/
theorem set_nil_value_indistinguishable_from_absent_witness :
    getImpl (SetRaw ([] : Table) 0 [1] [2] (some []) 1).1 3 [1] [2] true
      = Except.ok (some []) :=
  (set_nil_value_indistinguishable_from_absent [] 0 3 [1] [2] 1).2.2
    (by decide)

/-- C10: `batchSize` has no effect: for every table state and all batch
sizes `b1`, `b2`, `EnumerateRaw` performs exactly the same consumer
invocations and `FetchKeysRaw` returns the same keys — namely all
unexpired keys with the prefix, never truncated. -/
theorem batchSize_has_no_effect (st : Table) (now : Int) (p seek : Bytes)
    (b1 b2 : Int) (onlyKeys : Bool) (cb : RawEntry → Bool) :
    EnumerateRaw st now p seek b1 onlyKeys cb
      = EnumerateRaw st now p seek b2 onlyKeys cb ∧
    FetchKeysRaw st now p b1 = FetchKeysRaw st now p b2 ∧
    FetchKeysRaw st now p b1
      = ((cacheItems st now).filter (fun kv => p.isPrefixOf kv.1)).map
          Prod.fst := by
  refine ⟨rfl, rfl, ?_⟩
  unfold FetchKeysRaw
  rw [foldl_collect_keys]
  simp

end InMemoryStorage
